import Mathlib

/-!
Shallow embedding of the pico-gpio-net wire-protocol engine.

Source files embedded:
- `mock_server.py` — the complete, tested daemon (namespace `Mock`):
  stream buffer (`take_from_buffer`, `take_from_buffer_single`,
  `read_into_buffer`), dispatcher (`run_command`), pin registry
  (`cache_pin` / `set_pin` / `get_pin`), per-connection loop and accept
  loop (`run_daemon`).
- `server.py` — the Pico hardware daemon draft (namespace `Hw`): its
  opcode constants, its dispatch set, and its `cmd_wait_for_pin`
  polling loop (the only place it differs in behaviour from the mock
  for the claims below).
- `client.py` — the client (namespace `Client`): outbound queue,
  `flush`, `do_write_request`, `do_read_request` and the read-style
  operations built on them.

Modelling conventions: bytes are `Nat` (values < 256 on the wire);
`bytearray` is `List Nat`; a blocking socket is a pair of a byte stream
(`List Nat`) and a fragmentation schedule (the sizes or contents of the
successive `recv` results); Python exceptions are `Option.none`; Python
`dict` (insertion-ordered) is an association list `List (Nat × Nat)`;
`sleep` has no observable effect and is not modelled, but the number of
polls/sleeps of the hardware wait loop is counted explicitly.
-/

/-- Models Python `int.from_bytes(request, 'big')`
(`mock_server.py` line 223 / `server.py` line 484). -/
def int_from_bytes_be (bs : List Nat) : Nat :=
  bs.foldl (fun acc b => acc * 256 + b) 0

/-- The big-endian digit list of `n`, `k` bytes long (low byte last):
the byte content produced by Python `n.to_bytes(k, 'big')` when it
succeeds. -/
def to_bytes_digits : Nat → Nat → List Nat
  | 0, _ => []
  | k + 1, n => to_bytes_digits k (n / 256) ++ [n % 256]

/-- Models Python `n.to_bytes(k, 'big')` (`client.py` lines 202, 230,
252): `none` models the `OverflowError` raised when `n` does not fit in
`k` bytes. -/
def int_to_bytes_be (k n : Nat) : Option (List Nat) :=
  if n < 256 ^ k then some (to_bytes_digits k n) else none

/-- Models Python `str.encode()` (UTF-8) for one code point. -/
def utf8Char (c : Nat) : List Nat :=
  if c < 0x80 then [c]
  else if c < 0x800 then [0xC0 ||| (c >>> 6), 0x80 ||| (c &&& 0x3F)]
  else if c < 0x10000 then
    [0xE0 ||| (c >>> 12), 0x80 ||| ((c >>> 6) &&& 0x3F), 0x80 ||| (c &&& 0x3F)]
  else
    [0xF0 ||| (c >>> 18), 0x80 ||| ((c >>> 12) &&& 0x3F),
     0x80 ||| ((c >>> 6) &&& 0x3F), 0x80 ||| (c &&& 0x3F)]

/-- Models Python `str.encode()` (UTF-8), as used by
`mock_server.py` line 215. -/
def utf8Encode (s : String) : List Nat :=
  s.data.flatMap fun ch => utf8Char ch.toNat

/-!
The server stream buffer (`take_from_buffer` in `mock_server.py`
lines 240–254, textually identical in `server.py` lines 523–538).

The generator keeps yielding slices of the front of `self.buffer`; when
the buffer is empty it calls `read_into_buffer`, i.e. `recv`s the next
chunk from the socket (`mock_server.py` lines 226–232) and raises
`ValueError('Socket connection closed')` if that chunk is empty.

`reads` is the sequence of successive `recv` results the transport will
deliver; `none` models an exception: either a zero-byte `recv`
(connection closed) or blocking forever because the transport delivers
nothing further (`reads` exhausted).
-/

/-- The iterations of the `take_from_buffer` loop that run with
`self.buffer` empty: each pops one transport read. -/
def take_empty (n : Nat) : List (List Nat) → Option (List (List Nat) × List Nat × List (List Nat))
  | [] => none
  | r :: rs =>
    if r.isEmpty then none
    else if n ≤ r.length then some ([r.take n], r.drop n, rs)
    else (take_empty (n - r.length) rs).map fun x => (r :: x.1, x.2.1, x.2.2)

/-- `PicoGpioNetDaemon.take_from_buffer(numberOfBytes)`: returns the
list of yielded chunks, the remaining buffer and the remaining
transport reads. -/
def take_from_buffer (n : Nat) (buf : List Nat) (reads : List (List Nat)) :
    Option (List (List Nat) × List Nat × List (List Nat)) :=
  if n = 0 then some ([], buf, reads)
  else
    match buf with
    | [] => take_empty n reads
    | _ :: _ =>
      if n ≤ buf.length then some ([buf.take n], buf.drop n, reads)
      else (take_empty (n - buf.length) reads).map fun x => (buf :: x.1, x.2.1, x.2.2)

/-- `PicoGpioNetDaemon.take_from_buffer_single(numberOfBytes)`
(`mock_server.py` lines 234–238): the concatenation of the yielded
chunks. -/
def take_from_buffer_single (n : Nat) (buf : List Nat) (reads : List (List Nat)) :
    Option (List Nat × List Nat × List (List Nat)) :=
  (take_from_buffer n buf reads).map fun x => (x.1.flatten, x.2.1, x.2.2)

namespace Mock

/-! Constants of `mock_server.py` lines 15–25. -/

def apiVersion : Nat := 2

def CMD_SET_PIN_SINGLE : Nat := 0
def CMD_SET_PIN_MULTI : Nat := 1
def CMD_WRITE_BYTES : Nat := 2
def CMD_GET_PIN_SINGLE : Nat := 3
def CMD_GET_PIN_MULTI : Nat := 4
def CMD_DELAY : Nat := 5
def CMD_WAIT_FOR_PIN : Nat := 6
def CMD_GET_NAME : Nat := 7
def CMD_GET_API_VERSION : Nat := 8

/-- The opcodes the `run_command` elif-chain of `mock_server.py`
(lines 87–122) dispatches on, in source order. -/
def dispatch_opcodes : List Nat :=
  [CMD_SET_PIN_SINGLE, CMD_SET_PIN_MULTI, CMD_WRITE_BYTES, CMD_GET_PIN_SINGLE,
   CMD_GET_PIN_MULTI, CMD_DELAY, CMD_WAIT_FOR_PIN, CMD_GET_NAME, CMD_GET_API_VERSION]

/-- Lookup in the `self.pins` dict. -/
def pin_lookup : List (Nat × Nat) → Nat → Option Nat
  | [], _ => none
  | (k, v) :: rest, p => if k = p then some v else pin_lookup rest p

/-- `PicoGpioNetDaemon.cache_pin` (`mock_server.py` lines 188–190):
`if pin not in self.pins: self.pins[pin] = 0`. -/
def cache_pin (pins : List (Nat × Nat)) (p : Nat) : List (Nat × Nat) :=
  if (pin_lookup pins p).isSome then pins else pins ++ [(p, 0)]

/-- `PicoGpioNetDaemon.set_pin` (`mock_server.py` lines 181–186) applied
to the pair `[p, v]`: cache, then `self.pins[pin] = value`. -/
def set_pin (pins : List (Nat × Nat)) (p v : Nat) : List (Nat × Nat) :=
  (cache_pin pins p).map fun q => if q.1 = p then (q.1, v) else q

/-- `PicoGpioNetDaemon.get_pin` (`mock_server.py` lines 208–211):
cache, then read; returns the value and the updated registry. -/
def get_pin (pins : List (Nat × Nat)) (p : Nat) : Nat × List (Nat × Nat) :=
  let ps := cache_pin pins p
  ((pin_lookup ps p).getD 0, ps)

/-- The mutable daemon state of one connection: `self.buffer`, the
pending transport reads, `self.pins`, `self.name`. -/
structure DaemonState where
  buffer : List Nat
  reads : List (List Nat)
  pins : List (Nat × Nat)
  name : String
deriving DecidableEq

/-- `take_from_buffer_single` acting on the daemon state. -/
def take_single (n : Nat) (st : DaemonState) : Option (List Nat × DaemonState) :=
  (take_from_buffer_single n st.buffer st.reads).map fun x =>
    (x.1, { st with buffer := x.2.1, reads := x.2.2 })

/-- `PicoGpioNetDaemon.read_length_header` (`mock_server.py`
lines 220–224). -/
def read_length_header (n : Nat) (st : DaemonState) : Option (Nat × DaemonState) :=
  (take_single n st).map fun x => (int_from_bytes_be x.1, x.2)

/-- `PicoGpioNetDaemon.cmd_set_pin_single` (`mock_server.py`
lines 161–168). A short pair would raise `IndexError` in `set_pin`. -/
def cmd_set_pin_single (st : DaemonState) : Option DaemonState :=
  (take_single 2 st).bind fun x =>
    match x.1 with
    | [p, v] => some { x.2 with pins := set_pin x.2.pins p v }
    | _ => none

/-- The inner loop of `cmd_set_pin_multi` over one yielded chunk:
`for i in range(0, length, 2): self.set_pin(pairs[i:i+2])`. An odd-length
chunk makes the final `set_pin` raise `IndexError` on `pair[1]`. -/
def set_pairs_chunk : List (Nat × Nat) → List Nat → Option (List (Nat × Nat))
  | pins, [] => some pins
  | _, [_] => none
  | pins, p :: v :: rest => set_pairs_chunk (set_pin pins p v) rest

/-- `PicoGpioNetDaemon.cmd_set_pin_multi` (`mock_server.py`
lines 170–179). -/
def cmd_set_pin_multi (st : DaemonState) : Option DaemonState :=
  (read_length_header 1 st).bind fun x =>
    (take_from_buffer (x.1 * 2) x.2.buffer x.2.reads).bind fun y =>
      (y.1.foldlM set_pairs_chunk x.2.pins).map fun pins2 =>
        { x.2 with buffer := y.2.1, reads := y.2.2, pins := pins2 }

/-- `PicoGpioNetDaemon.cmd_write_bytes` (`mock_server.py`
lines 152–156): consumes the 4-byte length then that many data bytes;
the mock discards them. -/
def cmd_write_bytes (st : DaemonState) : Option DaemonState :=
  (read_length_header 4 st).bind fun x =>
    (take_from_buffer x.1 x.2.buffer x.2.reads).map fun y =>
      { x.2 with buffer := y.2.1, reads := y.2.2 }

/-- `PicoGpioNetDaemon.cmd_get_pin_single` (`mock_server.py`
lines 203–206). -/
def cmd_get_pin_single (st : DaemonState) : Option (Nat × DaemonState) :=
  (take_single 1 st).bind fun x =>
    match x.1 with
    | p :: _ =>
      let r := get_pin x.2.pins p
      some (r.1, { x.2 with pins := r.2 })
    | [] => none

/-- The nested loop of `cmd_get_pin_multi`: read each requested pin in
order, threading the registry. -/
def get_pins_acc : List (Nat × Nat) → List Nat → List Nat × List (Nat × Nat)
  | pins, [] => ([], pins)
  | pins, p :: rest =>
    let r := get_pin pins p
    let tailAcc := get_pins_acc r.2 rest
    (r.1 :: tailAcc.1, tailAcc.2)

/-- `PicoGpioNetDaemon.cmd_get_pin_multi` (`mock_server.py`
lines 192–201). -/
def cmd_get_pin_multi (st : DaemonState) : Option (List Nat × DaemonState) :=
  (read_length_header 1 st).bind fun x =>
    (take_from_buffer x.1 x.2.buffer x.2.reads).map fun y =>
      let g := get_pins_acc x.2.pins y.1.flatten
      (g.1, { x.2 with buffer := y.2.1, reads := y.2.2, pins := g.2 })

/-- `PicoGpioNetDaemon.cmd_delay` (`mock_server.py` lines 130–137):
consumes the 2-byte delay and sleeps (unobservable here). -/
def cmd_delay (st : DaemonState) : Option DaemonState :=
  (read_length_header 2 st).map fun x => x.2

/-- `PicoGpioNetDaemon.cmd_wait_for_pin` (`mock_server.py`
lines 139–150): consumes pin, target and the 2-byte delay, then runs
`while False: sleep(...)` — the mock never polls the pin. -/
def cmd_wait_for_pin (st : DaemonState) : Option DaemonState :=
  (take_single 2 st).bind fun x =>
    match x.1 with
    | [_, _] => (read_length_header 2 x.2).map fun y => y.2
    | _ => none

/-- `PicoGpioNetDaemon.cmd_get_name` (`mock_server.py` lines 213–218):
`nameLength.to_bytes()` packs the length into one byte and raises
`OverflowError` (`none`) when the encoded name exceeds 255 bytes. -/
def cmd_get_name (name : String) : Option (List Nat) :=
  let nameBytes := utf8Encode name
  if nameBytes.length < 256 then some (nameBytes.length :: nameBytes) else none

/-- `PicoGpioNetDaemon.run_command` (`mock_server.py` lines 79–128):
one opcode byte, dispatch, default response `[1]`. -/
def run_command (st : DaemonState) : Option (List Nat × DaemonState) :=
  (take_single 1 st).bind fun x =>
    match x.1 with
    | [command] =>
      if command = CMD_SET_PIN_SINGLE then (cmd_set_pin_single x.2).map fun st2 => ([1], st2)
      else if command = CMD_SET_PIN_MULTI then (cmd_set_pin_multi x.2).map fun st2 => ([1], st2)
      else if command = CMD_WRITE_BYTES then (cmd_write_bytes x.2).map fun st2 => ([1], st2)
      else if command = CMD_GET_PIN_SINGLE then (cmd_get_pin_single x.2).map fun r => ([r.1], r.2)
      else if command = CMD_GET_PIN_MULTI then cmd_get_pin_multi x.2
      else if command = CMD_DELAY then (cmd_delay x.2).map fun st2 => ([1], st2)
      else if command = CMD_WAIT_FOR_PIN then (cmd_wait_for_pin x.2).map fun st2 => ([1], st2)
      else if command = CMD_GET_NAME then (cmd_get_name x.2.name).map fun bs => (bs, x.2)
      else if command = CMD_GET_API_VERSION then some ([apiVersion], x.2)
      else some ([1], x.2)
    | _ => none

/-- The inner `while True` of `run_daemon` (`mock_server.py`
lines 70–77): run commands and send the responses until an exception
closes the connection. `fuel` bounds the number of commands attempted
(each command consumes at least one byte of the finite connection
input, so any `fuel` at least that total suffices). -/
def conn_loop : Nat → DaemonState → DaemonState
  | 0, st => st
  | fuel + 1, st =>
    match run_command st with
    | none => st
    | some x => conn_loop fuel x.2

/-- The accept loop of `run_daemon` (`mock_server.py` lines 57–77) over
a list of incoming connections: for each accepted connection the buffer
is reset and the connection is served until its processing raises; the
pin registry persists across connections. -/
def run_daemon (fuel : Nat) (name : String) (pins : List (Nat × Nat))
    (conns : List (List (List Nat))) : List (Nat × Nat) :=
  conns.foldl (fun p c => (conn_loop fuel { buffer := [], reads := c, pins := p, name := name }).pins) pins

end Mock

namespace Hw

/-! Constants of `server.py` lines 47–53. The Pico hardware draft
declares no `CMD_GET_NAME` and no `CMD_GET_API_VERSION`. -/

def CMD_SET_PIN_SINGLE : Nat := 0
def CMD_SET_PIN_MULTI : Nat := 1
def CMD_WRITE_BYTES : Nat := 2
def CMD_GET_PIN_SINGLE : Nat := 3
def CMD_GET_PIN_MULTI : Nat := 4
def CMD_DELAY : Nat := 5
def CMD_WAIT_FOR_PIN : Nat := 6

/-- The opcodes the `run_command` elif-chain of `server.py`
(lines 185–212) dispatches on, in source order; bytes 7 and 8 fall
through to the default branch there. -/
def dispatch_opcodes : List Nat :=
  [CMD_SET_PIN_SINGLE, CMD_SET_PIN_MULTI, CMD_WRITE_BYTES, CMD_GET_PIN_SINGLE,
   CMD_GET_PIN_MULTI, CMD_DELAY, CMD_WAIT_FOR_PIN]

/-- The `while self.get_pin(pin) != value: sleep(delay_seconds)` loop of
`server.py` line 298, run against the successive hardware readings of
the pin; returns `(number of reads of the pin, number of sleeps)`, or
`none` when no reading ever equals the target (the loop then never
terminates). -/
def wait_polls (target : Nat) : List Nat → Option (Nat × Nat)
  | [] => none
  | v :: vs =>
    if v = target then some (1, 0)
    else (wait_polls target vs).map fun x => (x.1 + 1, x.2 + 1)

/-- `PicoGpioNetDaemon.cmd_wait_for_pin` of `server.py` lines 286–299:
consumes pin(1B) and target(1B), then the 2-byte big-endian delay via
`read_length_header(2)`, then polls the pin until it reads the target,
sleeping the delay between checks. `pinReads` is the sequence of values
the hardware pin takes on successive reads. Returns
`(polls, sleeps, delay_ms, buffer', reads')`. -/
def cmd_wait_for_pin (buffer : List Nat) (reads : List (List Nat)) (pinReads : List Nat) :
    Option (Nat × Nat × Nat × List Nat × List (List Nat)) :=
  (take_from_buffer_single 2 buffer reads).bind fun x =>
    match x.1 with
    | [_pin, value] =>
      (take_from_buffer_single 2 x.2.1 x.2.2).bind fun y =>
        let delay_ms := int_from_bytes_be y.1
        (wait_polls value pinReads).map fun w => (w.1, w.2, delay_ms, y.2.1, y.2.2)
    | _ => none

end Hw

namespace Client

/-! Constants of `client.py` lines 35–43. -/

def CMD_SET_PIN_SINGLE : Nat := 0
def CMD_SET_PIN_MULTI : Nat := 1
def CMD_WRITE_BYTES : Nat := 2
def CMD_GET_PIN_SINGLE : Nat := 3
def CMD_GET_PIN_MULTI : Nat := 4
def CMD_DELAY : Nat := 5
def CMD_WAIT_FOR_PIN : Nat := 6
def CMD_GET_NAME : Nat := 7
def CMD_GET_API_VERSION : Nat := 8

/-- The client opcode constants in declaration order. -/
def opcodes : List Nat :=
  [CMD_SET_PIN_SINGLE, CMD_SET_PIN_MULTI, CMD_WRITE_BYTES, CMD_GET_PIN_SINGLE,
   CMD_GET_PIN_MULTI, CMD_DELAY, CMD_WAIT_FOR_PIN, CMD_GET_NAME, CMD_GET_API_VERSION]

/-- One transport operation performed by the client socket. -/
inductive NetEvent where
  | send (data : List Nat)
  | recv (data : List Nat)
deriving DecidableEq

/-- Whether an event is an outbound transmission (`sock.send`). -/
def NetEvent.isSend : NetEvent → Bool
  | send _ => true
  | recv _ => false

/-- The client queue state: `self.queue` and `self.queueCount`
(`client.py` lines 49, 52). -/
structure ClientQueue where
  queue : List Nat
  queueCount : Nat
deriving DecidableEq

/-- The `while len(result) < self.queueCount` receive loop of `flush`
(`client.py` lines 96–99). `w` is the number of response bytes still
needed; `stream` is the byte stream the server will send; `frags` caps
the sizes of the successive `recv` results (`recv(diff)` returns at
most `diff` bytes and at most the next fragment). Returns the received
chunks, the unconsumed stream and the unconsumed fragment schedule; a
`recv` that can deliver nothing models a loop that never finishes
(`none`). -/
def flush_recv : Nat → List Nat → List Nat → Option (List (List Nat) × List Nat × List Nat)
  | 0, stream, frags => some ([], stream, frags)
  | _ + 1, _, [] => none
  | w + 1, stream, f :: fs =>
    let chunk := stream.take (min (w + 1) f)
    if chunk.isEmpty then none
    else
      (flush_recv (w + 1 - chunk.length) (stream.drop chunk.length) fs).map fun x =>
        (chunk :: x.1, x.2.1, x.2.2)

/-- `PicoGpioNetClient.flush` (`client.py` lines 89–107): no-op on an
empty queue; otherwise one `sock.send(self.queue)`, then the receive
loop collects exactly `queueCount` response bytes (their values are
compared against 1 but the comparison results are discarded), then the
queue and the count are reset. Returns the transport events performed,
the new queue state, and the unconsumed stream and fragments. -/
def flush (st : ClientQueue) (stream frags : List Nat) :
    Option (List NetEvent × ClientQueue × List Nat × List Nat) :=
  if st.queueCount = 0 then some ([], st, stream, frags)
  else
    (flush_recv st.queueCount stream frags).map fun x =>
      (NetEvent.send st.queue :: x.1.map NetEvent.recv, ⟨[], 0⟩, x.2.1, x.2.2)

/-- `PicoGpioNetClient.do_write_request` (`client.py` lines 120–125)
with `autoFlush = False`: append the encoded command, bump the count. -/
def do_write_request (st : ClientQueue) (cmd : List Nat) : ClientQueue :=
  ⟨st.queue ++ cmd, st.queueCount + 1⟩

/-- `PicoGpioNetClient.do_read_request` (`client.py` lines 136–139):
flush the queue, `sock.send(cmd)`, then a single `sock.recv(length)`
for the response. -/
def do_read_request (st : ClientQueue) (cmd : List Nat) (len : Nat) (stream frags : List Nat) :
    Option (List NetEvent × List Nat × ClientQueue × List Nat × List Nat) :=
  (flush st stream frags).bind fun x =>
    match x.2.2.2 with
    | [] => none
    | f :: fs =>
      let resp := x.2.2.1.take (min len f)
      some (x.1 ++ [NetEvent.send cmd, NetEvent.recv resp], resp, x.2.1,
            x.2.2.1.drop resp.length, fs)

/-- `PicoGpioNetClient.set_pin` (`client.py` lines 147–149). -/
def set_pin_req (st : ClientQueue) (pin value : Nat) : ClientQueue :=
  do_write_request st [CMD_SET_PIN_SINGLE, pin, value]

/-- `PicoGpioNetClient.get_pin` (`client.py` lines 172–176). -/
def get_pin_req (st : ClientQueue) (pin : Nat) (stream frags : List Nat) :
    Option (List NetEvent × List Nat × ClientQueue × List Nat × List Nat) :=
  do_read_request st [CMD_GET_PIN_SINGLE, pin] 1 stream frags

/-- `PicoGpioNetClient.get_pins` (`client.py` lines 188–192). -/
def get_pins_req (st : ClientQueue) (pins : List Nat) (stream frags : List Nat) :
    Option (List NetEvent × List Nat × ClientQueue × List Nat × List Nat) :=
  do_read_request st (CMD_GET_PIN_MULTI :: pins.length :: pins) pins.length stream frags

/-- `PicoGpioNetClient.get_api_version` (`client.py` lines 284–288). -/
def get_api_version_req (st : ClientQueue) (stream frags : List Nat) :
    Option (List NetEvent × List Nat × ClientQueue × List Nat × List Nat) :=
  do_read_request st [CMD_GET_API_VERSION] 1 stream frags

/-- `PicoGpioNetClient.get_name` (`client.py` lines 264–270): a read
request for the 1-byte length, then one further `sock.recv` for the
name bytes. -/
def get_name_req (st : ClientQueue) (stream frags : List Nat) :
    Option (List NetEvent × List Nat × ClientQueue × List Nat × List Nat) :=
  (do_read_request st [CMD_GET_NAME] 1 stream frags).bind fun x =>
    match x.2.2.2.2 with
    | [] => none
    | f :: fs =>
      let nameBytes := x.2.2.2.1.take (min (int_from_bytes_be x.2.1) f)
      some (x.1 ++ [NetEvent.recv nameBytes], nameBytes, x.2.2.1,
            x.2.2.2.1.drop nameBytes.length, fs)

end Client

/-! ### Helper lemmas -/

theorem take_add_split {α : Type _} (k m : Nat) (l : List α) :
    l.take (k + m) = l.take k ++ (l.drop k).take m := by
  induction k generalizing l with
  | zero => simp
  | succ k ih =>
    cases l with
    | nil => simp
    | cons a as =>
      have h : k + 1 + m = (k + m) + 1 := by omega
      rw [h, List.take_succ_cons, List.take_succ_cons, ih, List.drop_succ_cons]
      rfl

theorem take_append_ge {α : Type _} (l₁ l₂ : List α) (n : Nat) (h : l₁.length ≤ n) :
    (l₁ ++ l₂).take n = l₁ ++ l₂.take (n - l₁.length) := by
  conv_lhs => rw [show n = l₁.length + (n - l₁.length) by omega]
  rw [take_add_split, List.take_left, List.drop_left]

theorem drop_append_ge {α : Type _} (l₁ l₂ : List α) (n : Nat) (h : l₁.length ≤ n) :
    (l₁ ++ l₂).drop n = l₂.drop (n - l₁.length) := by
  conv_lhs => rw [show n = l₁.length + (n - l₁.length) by omega]
  rw [← List.drop_drop, List.drop_left]

/-! ### Stream buffer: specification of `take_from_buffer` -/

/-- The refill iterations: assuming every transport read is non-empty
and the needed bytes are available, `take_empty` succeeds, consumes
some number `k` of reads, and hands back exactly the first `n` bytes of
what those reads delivered. -/
theorem take_empty_spec (reads : List (List Nat)) :
    ∀ n : Nat, 0 < n → (∀ r ∈ reads, r ≠ []) → n ≤ reads.flatten.length →
      ∃ chunks k,
        take_empty n reads = some (chunks, ((reads.take k).flatten).drop n, reads.drop k) ∧
        chunks.flatten = ((reads.take k).flatten).take n ∧
        n ≤ ((reads.take k).flatten).length ∧ k ≤ reads.length := by
  induction reads with
  | nil =>
    intro n hn _ hlen
    simp at hlen
    omega
  | cons r rs ih =>
    intro n hn hne hlen
    have hr : r ≠ [] := hne r (by simp)
    by_cases hcase : n ≤ r.length
    · refine ⟨[r.take n], 1, ?_, ?_, ?_, ?_⟩
      · simp [take_empty, List.isEmpty_iff, hr, hcase]
      · simp
      · simpa using hcase
      · simp
    · have hflatlen : (r :: rs).flatten.length = r.length + rs.flatten.length := by simp
      have hlen' : n - r.length ≤ rs.flatten.length := by omega
      obtain ⟨chunks₂, k₂, heq, hflat, hle, hk⟩ :=
        ih (n - r.length) (by omega) (fun x hx => hne x (by simp [hx])) hlen'
      have hrlen : r.length ≤ n := by omega
      refine ⟨r :: chunks₂, k₂ + 1, ?_, ?_, ?_, ?_⟩
      · simp only [take_empty, List.isEmpty_iff, hr, if_neg, hcase, if_false, heq,
          Option.map_some']
        simp only [List.take_succ_cons, List.flatten_cons, List.drop_succ_cons]
        rw [drop_append_ge r _ n hrlen]
      · simp only [List.flatten_cons, hflat, List.take_succ_cons]
        rw [take_append_ge r _ n hrlen]
      · simp only [List.take_succ_cons, List.flatten_cons, List.length_append]
        omega
      · simpa using hk

/-- Full specification of the `take_from_buffer` generator: assuming
every transport read is non-empty and enough bytes are available, it
succeeds, consumes some number `k` of reads, yields exactly the first
`n` bytes of the buffer followed by those reads, and leaves the rest of
those bytes as the new buffer. -/
theorem take_from_buffer_spec (n : Nat) (buf : List Nat) (reads : List (List Nat))
    (hne : ∀ r ∈ reads, r ≠ []) (hlen : n ≤ buf.length + reads.flatten.length) :
    ∃ chunks k,
      take_from_buffer n buf reads =
        some (chunks, (buf ++ (reads.take k).flatten).drop n, reads.drop k) ∧
      chunks.flatten = (buf ++ (reads.take k).flatten).take n ∧
      n ≤ buf.length + ((reads.take k).flatten).length ∧ k ≤ reads.length := by
  by_cases hn : n = 0
  · subst hn
    exact ⟨[], 0, by simp [take_from_buffer], by simp, by omega, by omega⟩
  cases buf with
  | nil =>
    obtain ⟨chunks, k, heq, hflat, hle, hk⟩ :=
      take_empty_spec reads n (by omega) hne (by simpa using hlen)
    exact ⟨chunks, k, by simpa [take_from_buffer, hn] using heq, by simpa using hflat,
      by simpa using hle, hk⟩
  | cons c cs =>
    by_cases hcase : n ≤ (c :: cs).length
    · refine ⟨[(c :: cs).take n], 0, ?_, by simp, by simpa using hcase, by omega⟩
      simp only [take_from_buffer, if_neg hn]
      rw [if_pos hcase]
      simp
    · have hclen : ((c :: cs) : List Nat).length = cs.length + 1 := by simp
      push_neg at hcase
      have hlen' : n - (c :: cs).length ≤ reads.flatten.length := by omega
      obtain ⟨chunks₂, k, heq, hflat, hle, hk⟩ :=
        take_empty_spec reads (n - (c :: cs).length) (by omega) hne hlen'
      have hblen : (c :: cs).length ≤ n := by omega
      have hcase' : ¬ n ≤ (c :: cs).length := by omega
      refine ⟨(c :: cs) :: chunks₂, k, ?_, ?_, ?_, hk⟩
      · simp only [take_from_buffer, if_neg hn]
        rw [if_neg hcase', heq]
        simp only [Option.map_some']
        rw [drop_append_ge (c :: cs) _ n hblen]
      · simp only [List.flatten_cons, hflat]
        rw [take_append_ge (c :: cs) _ n hblen]
      · omega

/-- Exact-fit evaluation: when the front of the buffer already holds
the `n` requested bytes, `take_from_buffer` yields them in one chunk
and touches no transport read. -/
theorem take_from_buffer_exact (n : Nat) (buf rest : List Nat) (reads : List (List Nat))
    (h1 : 0 < n) (h2 : buf.length = n) :
    take_from_buffer n (buf ++ rest) reads = some ([buf], rest, reads) := by
  cases buf with
  | nil => simp at h2; omega
  | cons c cs =>
    have hle : n ≤ ((c :: cs) ++ rest).length := by simp at h2 ⊢; omega
    have : ((c :: cs) ++ rest : List Nat) = c :: (cs ++ rest) := rfl
    rw [this] at hle ⊢
    simp only [take_from_buffer, if_neg (by omega : ¬ n = 0), hle, if_true, if_pos hle]
    rw [show (c :: (cs ++ rest) : List Nat) = (c :: cs) ++ rest from rfl,
      List.take_left' h2, List.drop_left' h2]

/-! ### Pin registry lemmas -/

theorem pin_lookup_append_self (pins : List (Nat × Nat)) (p x : Nat)
    (h : Mock.pin_lookup pins p = none) :
    Mock.pin_lookup (pins ++ [(p, x)]) p = some x := by
  induction pins with
  | nil => simp [Mock.pin_lookup]
  | cons q rest ih =>
    obtain ⟨a, b⟩ := q
    by_cases ha : a = p
    · simp [Mock.pin_lookup, ha] at h
    · simp [Mock.pin_lookup, ha] at h ⊢
      exact ih h

theorem pin_lookup_map_set (pins : List (Nat × Nat)) (p v w : Nat)
    (h : Mock.pin_lookup pins p = some w) :
    Mock.pin_lookup (pins.map fun q => if q.1 = p then (q.1, v) else q) p = some v := by
  induction pins with
  | nil => simp [Mock.pin_lookup] at h
  | cons q rest ih =>
    obtain ⟨a, b⟩ := q
    rw [List.map_cons]
    have hf : (if ((a, b) : Nat × Nat).1 = p then (((a, b) : Nat × Nat).1, v)
        else ((a, b) : Nat × Nat)) = if a = p then (a, v) else (a, b) := rfl
    rw [hf]
    by_cases ha : a = p
    · rw [if_pos ha]
      simp [Mock.pin_lookup, ha]
    · rw [if_neg ha]
      simp only [Mock.pin_lookup, if_neg ha] at h ⊢
      exact ih h

theorem pin_lookup_cache_self (pins : List (Nat × Nat)) (p : Nat) :
    Mock.pin_lookup (Mock.cache_pin pins p) p = some ((Mock.pin_lookup pins p).getD 0) := by
  unfold Mock.cache_pin
  cases h : Mock.pin_lookup pins p with
  | none => simp [h, pin_lookup_append_self pins p 0 h]
  | some w => simp [h]

theorem pin_lookup_set_self (pins : List (Nat × Nat)) (p v : Nat) :
    Mock.pin_lookup (Mock.set_pin pins p v) p = some v :=
  pin_lookup_map_set _ p v _ (pin_lookup_cache_self pins p)

theorem get_pin_of_absent (pins : List (Nat × Nat)) (p : Nat)
    (h : Mock.pin_lookup pins p = none) :
    Mock.get_pin pins p = (0, pins ++ [(p, 0)]) := by
  unfold Mock.get_pin Mock.cache_pin
  simp [h, pin_lookup_append_self pins p 0 h]

theorem get_pin_after_set (pins : List (Nat × Nat)) (p v : Nat) :
    (Mock.get_pin (Mock.set_pin pins p v) p).1 = v := by
  unfold Mock.get_pin Mock.cache_pin
  simp [pin_lookup_set_self pins p v]

/-! ### Claim theorems -/

/-- C2: for every initial buffer, every sequence of non-empty transport
reads delivering enough bytes, and every `n ≥ 1`,
`take_from_buffer_single n` returns exactly the first `n` bytes of the
buffer followed by the transport reads, removes exactly those `n` bytes,
and leaves the remaining delivered bytes buffered in their original
order (`k` is the number of transport reads actually consumed). -/
theorem c2_take_returns_first_n (n : Nat) (buf : List Nat) (reads : List (List Nat))
    (_h1 : 1 ≤ n) (h2 : ∀ r ∈ reads, r ≠ []) (h3 : n ≤ buf.length + reads.flatten.length) :
    ∃ k ≤ reads.length,
      take_from_buffer_single n buf reads =
        some ((buf ++ reads.flatten).take n,
              (buf ++ (reads.take k).flatten).drop n, reads.drop k) := by
  obtain ⟨chunks, k, heq, hflat, hle, hk⟩ := take_from_buffer_spec n buf reads h2 h3
  refine ⟨k, hk, ?_⟩
  have hsplit : buf ++ reads.flatten =
      (buf ++ (reads.take k).flatten) ++ (reads.drop k).flatten := by
    rw [List.append_assoc, ← List.flatten_append, List.take_append_drop]
  have hlen2 : n ≤ (buf ++ (reads.take k).flatten).length := by
    simp only [List.length_append]
    omega
  have htake : (buf ++ reads.flatten).take n = (buf ++ (reads.take k).flatten).take n := by
    rw [hsplit, List.take_append_of_le_length hlen2]
  simp only [take_from_buffer_single, heq, Option.map_some']
  rw [hflat, htake]

/-- Witness for C2 at a concrete fragmented input. -/
theorem c2_witness :
    ∃ k ≤ ([[8], [7, 6]] : List (List Nat)).length,
      take_from_buffer_single 3 [9] [[8], [7, 6]] =
        some ((([9] : List Nat) ++ ([[8], [7, 6]] : List (List Nat)).flatten).take 3,
              (([9] : List Nat) ++ (([[8], [7, 6]] : List (List Nat)).take k).flatten).drop 3,
              ([[8], [7, 6]] : List (List Nat)).drop k) :=
  c2_take_returns_first_n 3 [9] [[8], [7, 6]] (by decide) (by decide) (by decide)

/-- C3: `get_pin` on a never-set pin returns 0 and inserts the pin with
default 0; after `set_pin p v`, `get_pin p` returns `v`; and decoding
`[GET_PIN_MULTI, 2, 20, 21]` against a fresh registry responds
`[0, 0]`. -/
theorem c3_pin_registry (pins : List (Nat × Nat)) (p v : Nat) :
    (Mock.pin_lookup pins p = none → Mock.get_pin pins p = (0, pins ++ [(p, 0)])) ∧
    (Mock.get_pin (Mock.set_pin pins p v) p).1 = v ∧
    Mock.run_command ⟨[Mock.CMD_GET_PIN_MULTI, 2, 20, 21], [], [], "Mock server"⟩ =
      some ([0, 0], ⟨[], [], [(20, 0), (21, 0)], "Mock server"⟩) :=
  ⟨get_pin_of_absent pins p, get_pin_after_set pins p v, by decide⟩

/-- Witness for C3 at a concrete registry. -/
theorem c3_witness :
    Mock.get_pin [(5, 9)] 3 = (0, [(5, 9), (3, 0)]) ∧
    (Mock.get_pin (Mock.set_pin [(5, 9)] 3 7) 3).1 = 7 :=
  ⟨(c3_pin_registry [(5, 9)] 3 7).1 (by decide), (c3_pin_registry [(5, 9)] 3 7).2.1⟩

/-- C4: every opcode byte outside `{0, ..., 8}` consumes only the
opcode byte, raises no error, and yields the default response `[1]`
with the daemon state otherwise untouched. -/
theorem c4_unknown_opcode (c : Nat) (rest : List Nat) (reads : List (List Nat))
    (pins : List (Nat × Nat)) (nm : String) (h : 8 < c) :
    Mock.run_command ⟨c :: rest, reads, pins, nm⟩ = some ([1], ⟨rest, reads, pins, nm⟩) := by
  have h1 : take_from_buffer 1 (c :: rest) reads = some ([[c]], rest, reads) :=
    take_from_buffer_exact 1 [c] rest reads (by omega) rfl
  have hc0 : ¬ c = Mock.CMD_SET_PIN_SINGLE := by simp only [Mock.CMD_SET_PIN_SINGLE]; omega
  have hc1 : ¬ c = Mock.CMD_SET_PIN_MULTI := by simp only [Mock.CMD_SET_PIN_MULTI]; omega
  have hc2 : ¬ c = Mock.CMD_WRITE_BYTES := by simp only [Mock.CMD_WRITE_BYTES]; omega
  have hc3 : ¬ c = Mock.CMD_GET_PIN_SINGLE := by simp only [Mock.CMD_GET_PIN_SINGLE]; omega
  have hc4 : ¬ c = Mock.CMD_GET_PIN_MULTI := by simp only [Mock.CMD_GET_PIN_MULTI]; omega
  have hc5 : ¬ c = Mock.CMD_DELAY := by simp only [Mock.CMD_DELAY]; omega
  have hc6 : ¬ c = Mock.CMD_WAIT_FOR_PIN := by simp only [Mock.CMD_WAIT_FOR_PIN]; omega
  have hc7 : ¬ c = Mock.CMD_GET_NAME := by simp only [Mock.CMD_GET_NAME]; omega
  have hc8 : ¬ c = Mock.CMD_GET_API_VERSION := by simp only [Mock.CMD_GET_API_VERSION]; omega
  simp [Mock.run_command, Mock.take_single, take_from_buffer_single, h1,
    hc0, hc1, hc2, hc3, hc4, hc5, hc6, hc7, hc8]

/-- Witness for C4: the documented fallback at opcode 127. -/
theorem c4_witness :
    Mock.run_command ⟨[127], [], [], "Mock server"⟩ =
      some ([1], ⟨[], [], [], "Mock server"⟩) :=
  c4_unknown_opcode 127 [] [] [] "Mock server" (by omega)

/-! ### Big-endian length headers -/

theorem int_from_bytes_snoc (bs : List Nat) (b : Nat) :
    int_from_bytes_be (bs ++ [b]) = int_from_bytes_be bs * 256 + b := by
  simp [int_from_bytes_be, List.foldl_append]

theorem to_bytes_digits_length (k : Nat) : ∀ n : Nat, (to_bytes_digits k n).length = k := by
  induction k with
  | zero => intro n; rfl
  | succ k ih => intro n; simp [to_bytes_digits, ih]

theorem int_from_to_bytes (k : Nat) : ∀ n : Nat,
    int_from_bytes_be (to_bytes_digits k n) = n % 256 ^ k := by
  induction k with
  | zero => intro n; simp [to_bytes_digits, int_from_bytes_be, Nat.mod_one]
  | succ k ih =>
    intro n
    rw [to_bytes_digits, int_from_bytes_snoc, ih]
    rw [← Nat.mod_mul_right_div_self]
    have h2 : (256 : Nat) ^ (k + 1) = 256 * 256 ^ k := by
      rw [pow_succ]; ring
    rw [h2]
    have h1 : n % 256 = n % (256 * 256 ^ k) % 256 :=
      (Nat.mod_mod_of_dvd n ⟨256 ^ k, rfl⟩).symm
    rw [h1]
    have := Nat.div_add_mod (n % (256 * 256 ^ k)) 256
    omega

/-- C6: for `k ∈ {1, 2, 4}` and `N < 256^k`, the `k`-byte big-endian
encoding produced by the client's `int.to_bytes(k, 'big')` decodes back
to `N`, both through plain `int.from_bytes` and through the server's
`read_length_header` reading it off the connection buffer. -/
theorem c6_length_header_roundtrip (k N : Nat) (rest : List Nat) (reads : List (List Nat))
    (pins : List (Nat × Nat)) (nm : String)
    (hk : k = 1 ∨ k = 2 ∨ k = 4) (hN : N < 256 ^ k) :
    ∃ bs, int_to_bytes_be k N = some bs ∧ bs.length = k ∧ int_from_bytes_be bs = N ∧
      Mock.read_length_header k ⟨bs ++ rest, reads, pins, nm⟩ =
        some (N, ⟨rest, reads, pins, nm⟩) := by
  refine ⟨to_bytes_digits k N, ?_, to_bytes_digits_length k N, ?_, ?_⟩
  · simp [int_to_bytes_be, hN]
  · rw [int_from_to_bytes, Nat.mod_eq_of_lt hN]
  · have hkpos : 0 < k := by rcases hk with h | h | h <;> omega
    have htake : take_from_buffer k (to_bytes_digits k N ++ rest) reads =
        some ([to_bytes_digits k N], rest, reads) :=
      take_from_buffer_exact k _ rest reads hkpos (to_bytes_digits_length k N)
    simp [Mock.read_length_header, Mock.take_single, take_from_buffer_single, htake,
      int_from_to_bytes, Nat.mod_eq_of_lt hN]

/-- Witness for C6 at `k = 2`, `N = 517`. -/
theorem c6_witness :
    ∃ bs, int_to_bytes_be 2 517 = some bs ∧ bs.length = 2 ∧ int_from_bytes_be bs = 517 ∧
      Mock.read_length_header 2 ⟨bs ++ [9], [], [], "Mock server"⟩ =
        some (517, ⟨[9], [], [], "Mock server"⟩) :=
  c6_length_header_roundtrip 2 517 [9] [] [] "Mock server" (by omega) (by norm_num)

/-! ### Client flush -/

/-- Specification of the `flush` receive loop: when the server stream
holds at least `w` response bytes and at least `w` further `recv`s can
deliver data, the loop collects exactly the first `w` stream bytes and
consumes no more. -/
theorem flush_recv_spec (frags : List Nat) :
    ∀ (w : Nat) (stream : List Nat), w ≤ stream.length → w ≤ frags.length →
      (∀ f ∈ frags, 0 < f) →
      ∃ (chunks : List (List Nat)) (j : Nat),
        Client.flush_recv w stream frags = some (chunks, stream.drop w, frags.drop j) ∧
        chunks.flatten = stream.take w ∧ j ≤ w := by
  induction frags with
  | nil =>
    intro w stream hw hwf _
    have hw0 : w = 0 := by simpa using hwf
    subst hw0
    exact ⟨[], 0, by simp [Client.flush_recv], by simp, by omega⟩
  | cons f fs ih =>
    intro w stream hw hwf hpos
    cases w with
    | zero => exact ⟨[], 0, by simp [Client.flush_recv], by simp, by omega⟩
    | succ w' =>
      have hf : 0 < f := hpos f (by simp)
      set m := min (w' + 1) f with hm
      have hm1 : 1 ≤ m := by omega
      have hmw : m ≤ w' + 1 := by omega
      have hchunklen : (stream.take m).length = m := by
        rw [List.length_take]
        omega
      have hne : ¬ (stream.take m).isEmpty := by
        simp only [List.isEmpty_iff]
        intro hcon
        rw [hcon] at hchunklen
        simp at hchunklen
        omega
      obtain ⟨chunks₂, j₂, heq, hflat, hj⟩ :=
        ih (w' + 1 - m) (stream.drop m)
          (by rw [List.length_drop]; omega)
          (by simp at hwf ⊢; omega)
          (fun x hx => hpos x (by simp [hx]))
      refine ⟨stream.take m :: chunks₂, j₂ + 1, ?_, ?_, by omega⟩
      · simp only [Client.flush_recv]
        rw [← hm, if_neg hne, hchunklen, heq]
        simp only [Option.map_some']
        rw [List.drop_drop, show m + (w' + 1 - m) = w' + 1 by omega,
          List.drop_succ_cons]
      · simp only [List.flatten_cons, hflat]
        rw [← take_add_split m (w' + 1 - m) stream, show m + (w' + 1 - m) = w' + 1 by omega]

/-- C1: `flush` is a no-op on an empty queue (no transport event, state
unchanged); on a queue of `W > 0` commands it performs exactly one
`send` of the whole queue, then receives until exactly `W` response
bytes arrived — consuming exactly the first `W` stream bytes and no
more — then resets the queue, with no condition on the response byte
values. -/
theorem c1_flush (st : Client.ClientQueue) (stream frags : List Nat) :
    (st.queueCount = 0 → Client.flush st stream frags = some ([], st, stream, frags)) ∧
    (0 < st.queueCount → st.queueCount ≤ stream.length → st.queueCount ≤ frags.length →
      (∀ f ∈ frags, 0 < f) →
      ∃ (chunks : List (List Nat)) (j : Nat),
        Client.flush st stream frags =
          some (Client.NetEvent.send st.queue :: chunks.map Client.NetEvent.recv,
                ⟨[], 0⟩, stream.drop st.queueCount, frags.drop j) ∧
        chunks.flatten = stream.take st.queueCount ∧ j ≤ st.queueCount) := by
  constructor
  · intro h0
    simp [Client.flush, h0]
  · intro hpos h1 h2 h3
    obtain ⟨chunks, j, heq, hflat, hj⟩ := flush_recv_spec frags st.queueCount stream h1 h2 h3
    have hne0 : ¬ st.queueCount = 0 := by omega
    exact ⟨chunks, j, by simp [Client.flush, hne0, heq], hflat, hj⟩

/-- Witness for C1 with two queued commands and fragmented responses. -/
theorem c1_witness :
    ∃ (chunks : List (List Nat)) (j : Nat),
      Client.flush ⟨[0, 20, 1, 5, 0, 10], 2⟩ [1, 1, 9] [1, 5] =
        some (Client.NetEvent.send [0, 20, 1, 5, 0, 10] :: chunks.map Client.NetEvent.recv,
              ⟨[], 0⟩, ([1, 1, 9] : List Nat).drop 2, ([1, 5] : List Nat).drop j) ∧
      chunks.flatten = ([1, 1, 9] : List Nat).take 2 ∧ j ≤ 2 :=
  (c1_flush ⟨[0, 20, 1, 5, 0, 10], 2⟩ [1, 1, 9] [1, 5]).2
    (by decide) (by decide) (by decide) (by decide)

/-- C5 counterexample: with one queued write command, a read request
produces the event trace send-queue, recv-responses, send-read-command,
recv-read-response — two distinct outbound transmissions, not the
single combined transmission the claim asserts, and the flush responses
are even received before the read command is transmitted. -/
theorem c5_counterexample :
    (Client.do_read_request ⟨[0, 20, 1], 1⟩ [3, 20] 1 [1, 7] [5, 5]).map (fun x => x.1) =
      some [Client.NetEvent.send [0, 20, 1], Client.NetEvent.recv [1],
            Client.NetEvent.send [3, 20], Client.NetEvent.recv [7]] ∧
    (Client.do_read_request ⟨[0, 20, 1], 1⟩ [3, 20] 1 [1, 7] [5, 5]).map
        (fun x => (x.1.filter Client.NetEvent.isSend).length) = some 2 := by
  decide

/-- C5 (amended): a read request first flushes the pending queue — one
transmission of the queued bytes followed by its `queueCount` response
bytes — and only then transmits its own command as a second, separate
transmission, after which the read response is awaited. Both commands
are therefore transmitted before the read's response is received, but
in two transport writes, not one. -/
theorem c5_read_flushes_first (st : Client.ClientQueue) (cmd : List Nat) (len : Nat)
    (stream frags : List Nat) (h0 : 0 < st.queueCount) (h1 : st.queueCount ≤ stream.length)
    (h2 : st.queueCount < frags.length) (h3 : ∀ f ∈ frags, 0 < f) :
    ∃ (chunks : List (List Nat)) (j f : Nat) (fs : List Nat) (resp : List Nat),
      frags.drop j = f :: fs ∧
      resp = (stream.drop st.queueCount).take (min len f) ∧
      Client.do_read_request st cmd len stream frags =
        some ((Client.NetEvent.send st.queue :: chunks.map Client.NetEvent.recv) ++
                [Client.NetEvent.send cmd, Client.NetEvent.recv resp],
              resp, ⟨[], 0⟩, (stream.drop st.queueCount).drop resp.length, fs) ∧
      chunks.flatten = stream.take st.queueCount := by
  obtain ⟨chunks, j, heq, hflat, hj⟩ :=
    flush_recv_spec frags st.queueCount stream h1 (by omega) h3
  have hne0 : ¬ st.queueCount = 0 := by omega
  have hflush : Client.flush st stream frags =
      some (Client.NetEvent.send st.queue :: chunks.map Client.NetEvent.recv,
            ⟨[], 0⟩, stream.drop st.queueCount, frags.drop j) := by
    simp [Client.flush, hne0, heq]
  cases hd : frags.drop j with
  | nil =>
    exfalso
    rw [List.drop_eq_nil_iff] at hd
    omega
  | cons f fs =>
    refine ⟨chunks, j, f, fs, _, hd, rfl, ?_, hflat⟩
    simp [Client.do_read_request, hflush, hd]

/-- Witness for C5 (amended) at a concrete input. -/
theorem c5_witness :
    ∃ (chunks : List (List Nat)) (j f : Nat) (fs : List Nat) (resp : List Nat),
      ([5, 5] : List Nat).drop j = f :: fs ∧
      resp = (([1, 7] : List Nat).drop 1).take (min 1 f) ∧
      Client.do_read_request ⟨[0, 20, 1], 1⟩ [3, 20] 1 [1, 7] [5, 5] =
        some ((Client.NetEvent.send [0, 20, 1] :: chunks.map Client.NetEvent.recv) ++
                [Client.NetEvent.send [3, 20], Client.NetEvent.recv resp],
              resp, ⟨[], 0⟩, (([1, 7] : List Nat).drop 1).drop resp.length, fs) ∧
      chunks.flatten = ([1, 7] : List Nat).take 1 :=
  c5_read_flushes_first ⟨[0, 20, 1], 1⟩ [3, 20] 1 [1, 7] [5, 5]
    (by decide) (by decide) (by decide) (by decide)

/-! ### WAIT_FOR_PIN -/

/-- The hardware wait loop reads the pin until the first matching
value: with `pre` non-matching readings before the first match, it
polls `pre.length + 1` times and sleeps `pre.length` times. -/
theorem wait_polls_first_match (t : Nat) (pre post : List Nat) (hpre : ∀ x ∈ pre, x ≠ t) :
    Hw.wait_polls t (pre ++ t :: post) = some (pre.length + 1, pre.length) := by
  induction pre with
  | nil => simp [Hw.wait_polls]
  | cons a rest ih =>
    have ha : a ≠ t := hpre a (by simp)
    have ih2 := ih fun x hx => hpre x (by simp [hx])
    simp [Hw.wait_polls, ha, ih2]

/-- C7 counterexample: the mock server's `cmd_wait_for_pin` body is
`while False: sleep(...)` — decoding `[WAIT_FOR_PIN, 20, 1, 0, 50]`
against a fresh registry produces the success byte `[1]` immediately,
with the registry untouched (so the pin was never read/polled), even
though pin 20 reads 0, which differs from the target 1. -/
theorem c7_counterexample :
    Mock.run_command ⟨[Mock.CMD_WAIT_FOR_PIN, 20, 1, 0, 50], [], [], "Mock server"⟩ =
      some ([1], ⟨[], [], [], "Mock server"⟩) ∧
    (Mock.get_pin [] 20).1 = 0 ∧ (0 : Nat) ≠ 1 := by
  decide

/-- C7 (amended): decoding WAIT_FOR_PIN consumes pin(1B), target(1B)
and a 2-byte big-endian poll interval on both servers. On the Pico
server (`server.py`) the success byte is produced only after polling
the pin, sleeping the interval between checks, until a reading equals
the target — at least one poll always occurs. The mock server
(`mock_server.py`) performs no polling at all and responds `[1]`
immediately, whatever the pin's value. -/
theorem c7_wait_for_pin (p t d1 d2 : Nat) (rest : List Nat) (reads : List (List Nat))
    (pins : List (Nat × Nat)) (nm : String) (pre post : List Nat)
    (hpre : ∀ x ∈ pre, x ≠ t) :
    Hw.cmd_wait_for_pin (p :: t :: d1 :: d2 :: rest) reads (pre ++ t :: post) =
      some (pre.length + 1, pre.length, d1 * 256 + d2, rest, reads) ∧
    Mock.run_command ⟨Mock.CMD_WAIT_FOR_PIN :: p :: t :: d1 :: d2 :: rest, reads, pins, nm⟩ =
      some ([1], ⟨rest, reads, pins, nm⟩) := by
  have h1 : take_from_buffer 2 (p :: t :: d1 :: d2 :: rest) reads =
      some ([[p, t]], d1 :: d2 :: rest, reads) :=
    take_from_buffer_exact 2 [p, t] (d1 :: d2 :: rest) reads (by omega) rfl
  have h2 : take_from_buffer 2 (d1 :: d2 :: rest) reads = some ([[d1, d2]], rest, reads) :=
    take_from_buffer_exact 2 [d1, d2] rest reads (by omega) rfl
  constructor
  · simp [Hw.cmd_wait_for_pin, take_from_buffer_single, h1, h2,
      wait_polls_first_match t pre post hpre, int_from_bytes_be]
  · have h3 : take_from_buffer 1 (6 :: p :: t :: d1 :: d2 :: rest) reads =
        some ([[6]], p :: t :: d1 :: d2 :: rest, reads) :=
      take_from_buffer_exact 1 [6] (p :: t :: d1 :: d2 :: rest) reads (by omega) rfl
    simp [Mock.run_command, Mock.take_single, take_from_buffer_single, h3,
      Mock.cmd_wait_for_pin, Mock.read_length_header, h1, h2,
      Mock.CMD_SET_PIN_SINGLE, Mock.CMD_SET_PIN_MULTI, Mock.CMD_WRITE_BYTES,
      Mock.CMD_GET_PIN_SINGLE, Mock.CMD_GET_PIN_MULTI, Mock.CMD_DELAY,
      Mock.CMD_WAIT_FOR_PIN, Mock.CMD_GET_NAME, Mock.CMD_GET_API_VERSION]

/-- Witness for C7 (amended): pin 8, target 1, interval 517 ms, two
non-matching readings before the match: 3 polls, 2 sleeps. -/
theorem c7_witness :
    Hw.cmd_wait_for_pin [8, 1, 2, 5] [] ([0, 0] ++ 1 :: []) =
      some (([0, 0] : List Nat).length + 1, ([0, 0] : List Nat).length, 2 * 256 + 5, [], []) ∧
    Mock.run_command ⟨Mock.CMD_WAIT_FOR_PIN :: 8 :: 1 :: 2 :: 5 :: [], [], [], "Mock server"⟩ =
      some ([1], ⟨[], [], [], "Mock server"⟩) :=
  c7_wait_for_pin 8 1 2 5 [] [] [] "Mock server" [0, 0] [] (by decide)

/-! ### Connection-closed handling -/

/-- C8: a zero-byte transport read while filling the stream buffer
raises the connection-closed error (`none`, modelling
`ValueError('Socket connection closed')`); `run_command` propagates it;
and the accept loop catches it at the per-connection boundary: the
failing connection is dropped and every remaining connection is still
processed, with the pin registry untouched by the failed connection. -/
theorem c8_connection_closed (n : Nat) (junk : List (List Nat)) (pins : List (Nat × Nat))
    (nm : String) (fuel : Nat) (rest : List (List (List Nat))) (hn : 0 < n) :
    take_from_buffer n [] ([] :: junk) = none ∧
    Mock.run_command ⟨[], [] :: junk, pins, nm⟩ = none ∧
    Mock.run_daemon fuel nm pins (([] :: junk) :: rest) = Mock.run_daemon fuel nm pins rest := by
  have hA : ∀ m : Nat, 0 < m → take_from_buffer m [] ([] :: junk) = none := by
    intro m hm
    have hm0 : ¬ m = 0 := by omega
    simp [take_from_buffer, hm0, take_empty]
  have hB : Mock.run_command ⟨[], [] :: junk, pins, nm⟩ = none := by
    simp [Mock.run_command, Mock.take_single, take_from_buffer_single, hA 1 (by omega)]
  refine ⟨hA n hn, hB, ?_⟩
  have hC : (Mock.conn_loop fuel ⟨[], [] :: junk, pins, nm⟩).pins = pins := by
    cases fuel with
    | zero => rfl
    | succ fuel2 => simp [Mock.conn_loop, hB]
  simp [Mock.run_daemon, List.foldl_cons, hC]

/-- Witness for C8: a connection whose very first read returns zero
bytes is dropped and the daemon goes on accepting. -/
theorem c8_witness :
    take_from_buffer 1 [] [[]] = none ∧
    Mock.run_command ⟨[], [[]], [], "Mock server"⟩ = none ∧
    Mock.run_daemon 3 "Mock server" [] [[[]]] = Mock.run_daemon 3 "Mock server" [] [] :=
  c8_connection_closed 1 [] [] "Mock server" 3 [] (by omega)

/-! ### Opcode agreement -/

/-- C9 counterexample: the client declares `CMD_GET_NAME = 7` and
`CMD_GET_API_VERSION = 8`, but the hardware server's dispatcher
(`server.py`) declares no such constants and dispatches on neither
byte — its opcode set stops at `CMD_WAIT_FOR_PIN = 6`. -/
theorem c9_counterexample :
    Client.CMD_GET_NAME = 7 ∧ Client.CMD_GET_API_VERSION = 8 ∧
    (7 : Nat) ∉ Hw.dispatch_opcodes ∧ (8 : Nat) ∉ Hw.dispatch_opcodes ∧
    Hw.dispatch_opcodes.length = 7 := by
  decide

/-- C9 (amended): the client and the mock server agree on all nine
opcode constants; the hardware server declares only the first seven,
which agree with the client's values; bytes 7 and 8 are not dispatched
by the hardware server and fall through to its default response. -/
theorem c9_opcode_sets :
    Mock.dispatch_opcodes = Client.opcodes ∧
    Hw.dispatch_opcodes = Client.opcodes.take 7 ∧
    Client.opcodes = [0, 1, 2, 3, 4, 5, 6, 7, 8] ∧
    Hw.dispatch_opcodes = [0, 1, 2, 3, 4, 5, 6] := by
  decide

/-! ### GET_NAME length byte -/

/-- C10: for every configured name whose UTF-8 encoding has length
`L ≤ 255`, `cmd_get_name` responds with `1 + L` bytes — the length byte
`L` followed by the encoded name — and for `L > 255` it raises an
overflow error (`none`) instead, because `nameLength.to_bytes()` packs
the length into a single byte; `run_command` propagates both
behaviours. -/
theorem c10_get_name (nm : String) (pins : List (Nat × Nat)) :
    ((utf8Encode nm).length ≤ 255 →
      Mock.cmd_get_name nm = some ((utf8Encode nm).length :: utf8Encode nm) ∧
      ((utf8Encode nm).length :: utf8Encode nm).length = 1 + (utf8Encode nm).length ∧
      Mock.run_command ⟨[Mock.CMD_GET_NAME], [], pins, nm⟩ =
        some ((utf8Encode nm).length :: utf8Encode nm, ⟨[], [], pins, nm⟩)) ∧
    (255 < (utf8Encode nm).length →
      Mock.cmd_get_name nm = none ∧
      Mock.run_command ⟨[Mock.CMD_GET_NAME], [], pins, nm⟩ = none) := by
  have htake : take_from_buffer 1 [7] [] = some ([[7]], [], []) :=
    take_from_buffer_exact 1 [7] [] [] (by omega) rfl
  constructor
  · intro hle
    have hlt : (utf8Encode nm).length < 256 := by omega
    have heq : Mock.cmd_get_name nm = some ((utf8Encode nm).length :: utf8Encode nm) := by
      simp [Mock.cmd_get_name, hlt]
    refine ⟨heq, by simp [Nat.add_comm], ?_⟩
    simp [Mock.run_command, Mock.take_single, take_from_buffer_single, htake, heq,
      Mock.CMD_SET_PIN_SINGLE, Mock.CMD_SET_PIN_MULTI, Mock.CMD_WRITE_BYTES,
      Mock.CMD_GET_PIN_SINGLE, Mock.CMD_GET_PIN_MULTI, Mock.CMD_DELAY,
      Mock.CMD_WAIT_FOR_PIN, Mock.CMD_GET_NAME, Mock.CMD_GET_API_VERSION]
  · intro hgt
    have hlt : ¬ (utf8Encode nm).length < 256 := by omega
    have heq : Mock.cmd_get_name nm = none := by
      simp [Mock.cmd_get_name, hlt]
    refine ⟨heq, ?_⟩
    simp [Mock.run_command, Mock.take_single, take_from_buffer_single, htake, heq,
      Mock.CMD_SET_PIN_SINGLE, Mock.CMD_SET_PIN_MULTI, Mock.CMD_WRITE_BYTES,
      Mock.CMD_GET_PIN_SINGLE, Mock.CMD_GET_PIN_MULTI, Mock.CMD_DELAY,
      Mock.CMD_WAIT_FOR_PIN, Mock.CMD_GET_NAME, Mock.CMD_GET_API_VERSION]

set_option maxRecDepth 8192 in
/-- Witness for C10: the 11-byte name succeeds; a 256-character name
overflows the single length byte. -/
theorem c10_witness :
    Mock.cmd_get_name "Mock server" =
      some ((utf8Encode "Mock server").length :: utf8Encode "Mock server") ∧
    Mock.cmd_get_name (String.mk (List.replicate 256 'a')) = none :=
  ⟨((c10_get_name "Mock server" []).1 (by decide)).1,
   ((c10_get_name (String.mk (List.replicate 256 'a')) []).2 (by decide)).1⟩
